import Mathlib

/-!
Shallow embedding of the cross-thread log aggregator and the persistent
color theme registry of src/gpuvis_utils.cpp, together with theorems
checking the specification claims against the embedded code.

Machine integers (ImU32, uint64_t) are modelled as Nat with explicit
truncation where the source casts; float color math is modelled over ℚ
(exact arithmetic in place of IEEE floats); the global mutable state is
threaded explicitly through each operation.
-/

/-! ### Log aggregator (logf routines) -/

/-- State of the log aggregator: g_log is the visible log owned by the
main thread, g_thread_log is the pending log filled by other threads. -/
structure LogState where
  log : List String
  thread_log : List String
deriving DecidableEq

/-- Embedding of logf. The variadic formatting step (vasprintf) is passed
in as its observable outcome: the return value ret and the produced
buffer buf. The source pushes buf onto g_log when called from the main
thread, onto g_thread_log otherwise, and does nothing at all when
ret < 0. The C function returns void, so no error can be propagated. -/
def logf (st : LogState) (is_main_thread : Bool) (ret : Int) (buf : String) :
    LogState :=
  if 0 ≤ ret then
    if is_main_thread then { st with log := st.log ++ [buf] }
    else { st with thread_log := st.thread_log ++ [buf] }
  else st

/-- Embedding of logf_update: when g_thread_log is non-empty, every entry
is pushed onto g_log in order and g_thread_log is cleared. -/
def logf_update (st : LogState) : LogState :=
  if st.thread_log.length ≠ 0 then
    { log := st.log ++ st.thread_log, thread_log := [] }
  else st

/-! ### Color theme registry (Clrs) -/

/-- One entry of Clrs::s_colordata (colordata_t): stable name, current
packed RGBA color, compile-time default color, modified flag and a
description. -/
structure colordata where
  name : String
  color : Nat
  defcolor : Nat
  modified : Bool
  desc : String
deriving DecidableEq

instance : Inhabited colordata := ⟨⟨"", 0, 0, false, ""⟩⟩

/-- Entry-level form of Clrs::is_default: current color equals default. -/
def colordata.isDefault (cd : colordata) : Bool :=
  cd.color == cd.defcolor

/-- Modelled from the spec: gpuvis_colors.inl, which fixes the colors_t
enumeration and the static table, is not under src. The five alpha-only
roles named by Clrs::is_alpha_color are given distinct Nat indices. -/
def col_ThemeAlpha : Nat := 0

/-- Modelled from the spec: label saturation role index (see col_ThemeAlpha). -/
def col_Graph_PrintLabelSat : Nat := 1

/-- Modelled from the spec: label alpha role index (see col_ThemeAlpha). -/
def col_Graph_PrintLabelAlpha : Nat := 2

/-- Modelled from the spec: label saturation role index (see col_ThemeAlpha). -/
def col_Graph_TimelineLabelSat : Nat := 3

/-- Modelled from the spec: label alpha role index (see col_ThemeAlpha). -/
def col_Graph_TimelineLabelAlpha : Nat := 4

/-- Embedding of Clrs::is_alpha_color: true exactly for the five roles of
the switch statement. -/
def Clrs.is_alpha_color (col : Nat) : Bool :=
  col == col_ThemeAlpha ||
  col == col_Graph_PrintLabelSat ||
  col == col_Graph_PrintLabelAlpha ||
  col == col_Graph_TimelineLabelSat ||
  col == col_Graph_TimelineLabelAlpha

/-- Shift of the alpha byte in a packed IM_COL32 color (imgui default
layout: R at bit 0, G at 8, B at 16, A at 24). -/
def IM_COL32_A_SHIFT : Nat := 24

/-- Red channel of a packed color. -/
def IM_COL32_R (c : Nat) : Nat := (c >>> 0) &&& 0xff

/-- Green channel of a packed color. -/
def IM_COL32_G (c : Nat) : Nat := (c >>> 8) &&& 0xff

/-- Blue channel of a packed color. -/
def IM_COL32_B (c : Nat) : Nat := (c >>> 16) &&& 0xff

/-- Alpha channel of a packed color. -/
def IM_COL32_A (c : Nat) : Nat := (c >>> 24) &&& 0xff

/-- Embedding of Clrs::get. On 32-bit values the C expression
color & ~IM_COL32_A_MASK equals color &&& 0x00FFFFFF. The color table is
a read-only input: the function returns only the packed color. -/
def Clrs.get (table : List colordata) (col : Nat) (alpha : Nat) : Nat :=
  if alpha ≤ 0xff then
    ((table.getD col default).color &&& 0x00FFFFFF) |||
      (alpha <<< IM_COL32_A_SHIFT)
  else
    (table.getD col default).color

/-- Embedding of Clrs::set: update color and raise the modified flag only
when the new color differs from the current one. -/
def Clrs.set (table : List colordata) (col : Nat) (color : Nat) :
    List colordata :=
  if (table.getD col default).color ≠ color then
    table.set col
      { table.getD col default with color := color, modified := true }
  else table

/-- Embedding of Clrs::reset: restore the default color of one entry,
leaving every other field (including the modified flag) untouched. -/
def Clrs.reset (table : List colordata) (col : Nat) : List colordata :=
  table.set col
    { table.getD col default with
        color := (table.getD col default).defcolor }

/-- Embedding of Clrs::is_default. -/
def Clrs.is_default (table : List colordata) (col : Nat) : Bool :=
  (table.getD col default).isDefault

/-! ### Persistent ini store -/

/-- Value stored in the key-value store: strings or 64-bit integers. -/
inductive IniVal where
  | str (s : String)
  | u64 (n : Nat)
deriving DecidableEq

/-- Modelled from the spec: the stlini persistent store backing s_ini()
is not under src. It is a map from (section, key) pairs to typed
values. -/
def Ini : Type := String → String → Option IniVal

/-- Put a value under (section, key), overwriting any previous value. -/
def Ini.put (ini : Ini) (sec key : String) (v : IniVal) : Ini :=
  fun s k => if s = sec ∧ k = key then some v else ini s k

/-- Modelled from the spec: GetUint64 returns the stored 64-bit value for
(key, section), or the caller-supplied default when the key is absent or
not stored as a 64-bit value. -/
def Ini.GetUint64 (ini : Ini) (key : String) (defval : Nat) (sec : String) :
    Nat :=
  match ini sec key with
  | some (IniVal.u64 n) => n
  | _ => defval

/-- Largest uint64_t value, used by Clrs::init as an absence sentinel. -/
def UINT64_MAX : Nat := 2 ^ 64 - 1

/-- Embedding of Clrs::init. The loop body for entry i reads and writes
entry i only, so the indexed loop over the fixed table is a map. The C
cast (ImU32)val truncates to the low 32 bits. -/
def Clrs.init (ini : Ini) (table : List colordata) : List colordata :=
  table.map (fun cd =>
    let val := ini.GetUint64 cd.name UINT64_MAX "$imgui_colors$"
    if val ≠ UINT64_MAX then { cd with color := val % 2 ^ 32 } else cd)

/-- One write performed on the ini store. -/
inductive IniWrite where
  | putStr (key val sec : String)
  | putUint64 (key : String) (val : Nat) (sec : String)
deriving DecidableEq

/-- Writes performed by Clrs::shutdown, in table order: for each modified
entry, a blank string is stored when the entry is back at its default,
else the current color is stored; unmodified entries produce no write. -/
def Clrs.shutdownWrites (table : List colordata) : List IniWrite :=
  table.flatMap (fun cd =>
    if cd.modified then
      if cd.isDefault then [IniWrite.putStr cd.name "" "$imgui_colors$"]
      else [IniWrite.putUint64 cd.name cd.color "$imgui_colors$"]
    else [])

/-- Apply one write to the store. -/
def Ini.applyWrite (ini : Ini) : IniWrite → Ini
  | IniWrite.putStr key v sec => ini.put sec key (IniVal.str v)
  | IniWrite.putUint64 key v sec => ini.put sec key (IniVal.u64 v)

/-- Combined state touched by Clrs::shutdown: the color table and the
ini store. -/
structure ClrsIniState where
  colordata : List colordata
  ini : Ini

/-- Embedding of Clrs::shutdown as a transformer of the combined state:
it performs the writes of shutdownWrites on the store; the source loop
only reads s_colordata, so the table component is passed through. -/
def Clrs.shutdown (st : ClrsIniState) : ClrsIniState :=
  { colordata := st.colordata,
    ini := (Clrs.shutdownWrites st.colordata).foldl Ini.applyWrite st.ini }

/-! ### Color math (imgui helpers) over exact rational arithmetic -/

/-- Truncation toward zero, the behavior of the C float to int cast and
the basis of fmodf. -/
def qtrunc (x : ℚ) : ℤ := if 0 ≤ x then ⌊x⌋ else ⌈x⌉

/-- Embedding of fmodf(x, 1.0f): x minus its truncation toward zero. -/
def qfmod1 (x : ℚ) : ℚ := x - qtrunc x

/-- Embedding of ImSaturate: clamp to the unit interval. -/
def ImSaturate (x : ℚ) : ℚ := if x < 0 then 0 else if 1 < x then 1 else x

/-- Embedding of IM_F32_TO_INT8_SAT: saturate, scale to 255 and round to
nearest via the int cast of x * 255 + 0.5 (nonnegative, so floor). -/
def IM_F32_TO_INT8_SAT (x : ℚ) : Nat := (⌊ImSaturate x * 255 + 1 / 2⌋).toNat

/-- Embedding of ImGui::ColorConvertFloat4ToU32 restricted to the
IM_COL32 byte layout used throughout the file. -/
def ColorConvertFloat4ToU32 (x y z w : ℚ) : Nat :=
  (IM_F32_TO_INT8_SAT x <<< 0) ||| (IM_F32_TO_INT8_SAT y <<< 8) |||
    (IM_F32_TO_INT8_SAT z <<< 16) ||| (IM_F32_TO_INT8_SAT w <<< 24)

/-- Embedding of ImGui::ColorConvertRGBtoHSV, conditional swaps written
as conditional rebindings; the literal 1e-20 guard constants of the
source are kept. Returns (h, s, v). -/
def ColorConvertRGBtoHSV (r0 g0 b0 : ℚ) : ℚ × ℚ × ℚ :=
  let g1 := if g0 < b0 then b0 else g0
  let b1 := if g0 < b0 then g0 else b0
  let K1 : ℚ := if g0 < b0 then -1 else 0
  let r2 := if r0 < g1 then g1 else r0
  let g2 := if r0 < g1 then r0 else g1
  let K2 := if r0 < g1 then -2 / 6 - K1 else K1
  let chroma := r2 - (if g2 < b1 then g2 else b1)
  (|K2 + (g2 - b1) / (6 * chroma + 1 / 10 ^ 20)|,
    chroma / (r2 + 1 / 10 ^ 20),
    r2)

/-- Embedding of ImGui::ColorConvertHSVtoRGB: grey when s is zero, else
select a sector from fmodf(h, 1) scaled by 6 (the source divides by the
constant 60/360). -/
def ColorConvertHSVtoRGB (h s v : ℚ) : ℚ × ℚ × ℚ :=
  if s = 0 then (v, v, v)
  else
    let h6 := qfmod1 h / (60 / 360)
    let i := qtrunc h6
    let f := h6 - (i : ℚ)
    let p := v * (1 - s)
    let q := v * (1 - s * f)
    let t := v * (1 - s * (1 - f))
    if i = 0 then (v, t, p)
    else if i = 1 then (q, v, p)
    else if i = 2 then (p, v, t)
    else if i = 3 then (p, q, v)
    else if i = 4 then (t, p, v)
    else (v, p, q)

/-- Embedding of ImColor::HSV composed with the ImU32 conversion. -/
def ImColorHSV (h s v a : ℚ) : Nat :=
  let rgb := ColorConvertHSVtoRGB h s v
  ColorConvertFloat4ToU32 rgb.1 rgb.2.1 rgb.2.2 a

/-- Embedding of imgui_hsv from the source. -/
def imgui_hsv (h s v a : ℚ) : Nat := ImColorHSV h s v a

/-- Embedding of the ImColor(ImU32) constructor: unpack a color into the
normalized float 4-tuple (x, y, z, w) = (r, g, b, a) / 255. -/
def ImColorToVec4 (col : Nat) : ℚ × ℚ × ℚ × ℚ :=
  ((IM_COL32_R col : ℚ) / 255, (IM_COL32_G col : ℚ) / 255,
    (IM_COL32_B col : ℚ) / 255, (IM_COL32_A col : ℚ) / 255)

/-- Hue derived by imgui_col_from_hashval from the low 24 bits. -/
def imgui_col_from_hashval_h (hashval : Nat) : ℚ :=
  ((hashval &&& 0xffffff : Nat) : ℚ) / 16777215

/-- Value derived by imgui_col_from_hashval from the high 8 bits. -/
def imgui_col_from_hashval_v (hashval : Nat) : ℚ :=
  ((hashval >>> 24 : Nat) : ℚ) / (2 * 255) + 1 / 2

/-- Embedding of imgui_col_from_hashval. -/
def imgui_col_from_hashval (hashval : Nat) (sat alpha : ℚ) : Nat :=
  imgui_hsv (imgui_col_from_hashval_h hashval) sat
    (imgui_col_from_hashval_v hashval) alpha

/-- Hue rotation performed by imgui_col_complement: add 0.5 and subtract
1 when the result exceeds 1. -/
def rot_half (h : ℚ) : ℚ := if 1 < h + 1 / 2 then h + 1 / 2 - 1 else h + 1 / 2

/-- Embedding of imgui_col_complement: unpack, convert to HSV, rotate the
hue by 0.5, convert back with alpha 1.0. -/
def imgui_col_complement (col : Nat) : Nat :=
  let v4 := ImColorToVec4 col
  let hsv := ColorConvertRGBtoHSV v4.1 v4.2.1 v4.2.2.1
  imgui_hsv (rot_half hsv.1) hsv.2.1 hsv.2.2 1

/-- Specification-side complement, following the spec words: convert the
color to hue/saturation/value, rotate the hue by 0.5 modulo 1.0 (here
Int.fract, the mathematical mod-1 reduction), convert back to RGBA with
full opacity. To be compared with imgui_col_complement. -/
def spec_complement (col : Nat) : Nat :=
  let v4 := ImColorToVec4 col
  let hsv := ColorConvertRGBtoHSV v4.1 v4.2.1 v4.2.2.1
  imgui_hsv (Int.fract (hsv.1 + 1 / 2)) hsv.2.1 hsv.2.2 1

/-! ### Concrete instances used by witnesses and counterexamples -/

/-- Table with a single alpha-only entry, for the C1 counterexample. -/
def c1_table : List colordata :=
  [{ name := "col_ThemeAlpha", color := 0xFF112233, defcolor := 0xFF112233,
     modified := false, desc := "alpha-only role" }]

/-- Two-entry table for the C1 and C2 witnesses: col_A differs from its
default, col_B is modified and back at its default. -/
def c2_table : List colordata :=
  [{ name := "col_A", color := 5, defcolor := 9, modified := false,
     desc := "" },
   { name := "col_B", color := 3, defcolor := 3, modified := true,
     desc := "" }]

/-- Single-entry table whose stored ini value is the UINT64_MAX
sentinel, for the C3 counterexample. -/
def c3_table : List colordata :=
  [{ name := "col_A", color := 7, defcolor := 7, modified := false,
     desc := "" }]

/-- Store holding the sentinel value under col_A. -/
def c3_ini : Ini := fun sec key =>
  if sec = "$imgui_colors$" ∧ key = "col_A" then
    some (IniVal.u64 UINT64_MAX)
  else none

/-- Store holding an ordinary override under col_A, for the C3 witness. -/
def c3_ini_present : Ini := fun sec key =>
  if sec = "$imgui_colors$" ∧ key = "col_A" then some (IniVal.u64 17)
  else none

/-! ### Helper lemmas -/

/-- Reading back the written slot of a list update. -/
theorem getD_set_self (l : List colordata) (i : Nat) (a : colordata)
    (h : i < l.length) : (l.set i a).getD i default = a := by
  simp [List.getD_eq_getElem?_getD, List.getElem?_set_self h]

/-- Reading an untouched slot of a list update. -/
theorem getD_set_ne (l : List colordata) {i j : Nat} (a : colordata)
    (h : i ≠ j) : (l.set i a).getD j default = l.getD j default := by
  simp [List.getD_eq_getElem?_getD, List.getElem?_set_ne h]

/-! ### C6: logf_update migrates the pending log -/

/-- C6: logf_update (flush) appends every pending entry to the end of the
visible log in enqueue order and empties the pending log; the entries
already visible are unchanged and keep their relative order, and when the
pending log is empty neither log changes. -/
theorem logf_update_spec (st : LogState) :
    logf_update st = { log := st.log ++ st.thread_log, thread_log := [] } ∧
    (st.thread_log = [] → logf_update st = st) := by
  obtain ⟨l, t⟩ := st
  constructor
  · cases t <;> simp [logf_update]
  · intro h
    simp only at h
    subst h
    simp [logf_update]

/-- Witness for C6 at a concrete state with an empty pending log. -/
theorem logf_update_spec_witness :
    logf_update { log := ["a"], thread_log := [] } =
      { log := ["a"], thread_log := [] } :=
  (logf_update_spec { log := ["a"], thread_log := [] }).2 rfl

/-! ### C7: failed formatting drops the message -/

/-- C7: when the formatting step reports a negative size, logf leaves
both the visible and the pending log exactly as they were; the function
returns only the unchanged state, so no error reaches the caller. -/
theorem logf_neg_ret_drops (st : LogState) (is_main_thread : Bool)
    (ret : Int) (buf : String) (h : ret < 0) :
    logf st is_main_thread ret buf = st := by
  unfold logf
  rw [if_neg (by omega)]

/-- Witness for C7 at a concrete failing call. -/
theorem logf_neg_ret_drops_witness :
    logf { log := ["x"], thread_log := ["y"] } true (-1) "z" =
      { log := ["x"], thread_log := ["y"] } :=
  logf_neg_ret_drops _ _ _ _ (by decide)

/-! ### C10: shutdown never writes the color table -/

/-- C10: Clrs::shutdown leaves the in-memory color table untouched: every
entry (name, color, defcolor, modified, desc) is identical before and
after, so in particular no modified flag is cleared and a second run
produces exactly the same list of store writes. -/
theorem clrs_shutdown_no_table_mutation (st : ClrsIniState) :
    (Clrs.shutdown st).colordata = st.colordata ∧
    (∀ col : Nat,
      (Clrs.shutdown st).colordata.getD col default =
        st.colordata.getD col default) ∧
    Clrs.shutdownWrites (Clrs.shutdown st).colordata =
      Clrs.shutdownWrites st.colordata :=
  ⟨rfl, fun _ => rfl, rfl⟩

/-! ### C4: reset restores the default color and nothing else -/

/-- C4: Clrs::reset sets the current color of the given role to its
default color and changes nothing else: the rest of the entry (including
the modified flag, which reset does not clear) is kept, and every other
entry is untouched. -/
theorem clrs_reset_spec (table : List colordata) (col : Nat)
    (h : col < table.length) :
    (Clrs.reset table col).getD col default =
      { table.getD col default with
          color := (table.getD col default).defcolor } ∧
    ((Clrs.reset table col).getD col default).modified =
      (table.getD col default).modified ∧
    (∀ j, j ≠ col → (Clrs.reset table col).getD j default =
      table.getD j default) ∧
    (Clrs.reset table col).length = table.length := by
  refine ⟨?_, ?_, ?_, ?_⟩
  · exact getD_set_self _ _ _ h
  · rw [Clrs.reset, getD_set_self _ _ _ h]
  · intro j hj
    exact getD_set_ne _ _ (Ne.symm hj)
  · simp [Clrs.reset]

/-- Witness for C4 at a concrete table: the modified flag survives reset
while the color returns to its default. -/
theorem clrs_reset_spec_witness :
    (Clrs.reset c2_table 0).getD 0 default =
      { name := "col_A", color := 9, defcolor := 9, modified := false,
        desc := "" } :=
  (clrs_reset_spec c2_table 0 (by decide)).1

/-! ### C5: set updates only on change and is idempotent -/

/-- C5: when the new color differs from the current one, Clrs::set stores
it and raises the modified flag; when it is equal the whole table is
returned unchanged (no flag change); consequently two identical set calls
leave the same state as one. -/
theorem clrs_set_spec (table : List colordata) (col : Nat) (color : Nat)
    (h : col < table.length) :
    ((table.getD col default).color ≠ color →
      ((Clrs.set table col color).getD col default).color = color ∧
      ((Clrs.set table col color).getD col default).modified = true) ∧
    ((table.getD col default).color = color →
      Clrs.set table col color = table) ∧
    Clrs.set (Clrs.set table col color) col color =
      Clrs.set table col color := by
  have hcol : ((Clrs.set table col color).getD col default).color = color := by
    by_cases hne : (table.getD col default).color ≠ color
    · unfold Clrs.set
      rw [if_pos hne, getD_set_self _ _ _ h]
    · push_neg at hne
      unfold Clrs.set
      rw [if_neg (fun hc => hc hne)]
      exact hne
  refine ⟨?_, ?_, ?_⟩
  · intro hne
    have e : (Clrs.set table col color).getD col default =
        { table.getD col default with color := color, modified := true } := by
      unfold Clrs.set
      rw [if_pos hne]
      exact getD_set_self _ _ _ h
    rw [e]
    exact ⟨rfl, rfl⟩
  · intro heq
    unfold Clrs.set
    rw [if_neg (fun hc => hc heq)]
  · set T := Clrs.set table col color with hT
    unfold Clrs.set
    rw [if_neg (fun hc => hc hcol)]

/-- Witness for C5 at a concrete table with a differing new color. -/
theorem clrs_set_spec_witness :
    ((Clrs.set c2_table 0 11).getD 0 default).color = 11 ∧
    ((Clrs.set c2_table 0 11).getD 0 default).modified = true :=
  (clrs_set_spec c2_table 0 11 (by decide)).1 (by decide)

/-! ### C1: alpha override in Clrs::get -/

/-- Red channel of the alpha-overridden combination is that of c. -/
theorem IM_COL32_R_combine (c a : Nat) :
    IM_COL32_R ((c &&& 0x00FFFFFF) ||| (a <<< 24)) = IM_COL32_R c := by
  unfold IM_COL32_R
  apply Nat.eq_of_testBit_eq
  intro i
  have h24 : (0x00FFFFFF : Nat) = 2 ^ 24 - 1 := by norm_num
  have h8 : (0xff : Nat) = 2 ^ 8 - 1 := by norm_num
  simp only [h24, h8, Nat.testBit_and, Nat.testBit_or, Nat.testBit_shiftLeft,
    Nat.testBit_shiftRight, Nat.testBit_two_pow_sub_one, Nat.zero_add]
  rcases Nat.lt_or_ge i 8 with hi | hi
  · have t1 : i < 24 := by omega
    have t2 : ¬ i ≥ 24 := by omega
    simp [hi, t1, t2]
  · have t0 : ¬ i < 8 := by omega
    simp [t0]

/-- Green channel of the alpha-overridden combination is that of c. -/
theorem IM_COL32_G_combine (c a : Nat) :
    IM_COL32_G ((c &&& 0x00FFFFFF) ||| (a <<< 24)) = IM_COL32_G c := by
  unfold IM_COL32_G
  apply Nat.eq_of_testBit_eq
  intro i
  have h24 : (0x00FFFFFF : Nat) = 2 ^ 24 - 1 := by norm_num
  have h8 : (0xff : Nat) = 2 ^ 8 - 1 := by norm_num
  simp only [h24, h8, Nat.testBit_and, Nat.testBit_or, Nat.testBit_shiftLeft,
    Nat.testBit_shiftRight, Nat.testBit_two_pow_sub_one]
  rcases Nat.lt_or_ge i 8 with hi | hi
  · have t1 : 8 + i < 24 := by omega
    have t2 : ¬ 8 + i ≥ 24 := by omega
    simp [hi, t1, t2]
  · have t0 : ¬ i < 8 := by omega
    simp [t0]

/-- Blue channel of the alpha-overridden combination is that of c. -/
theorem IM_COL32_B_combine (c a : Nat) :
    IM_COL32_B ((c &&& 0x00FFFFFF) ||| (a <<< 24)) = IM_COL32_B c := by
  unfold IM_COL32_B
  apply Nat.eq_of_testBit_eq
  intro i
  have h24 : (0x00FFFFFF : Nat) = 2 ^ 24 - 1 := by norm_num
  have h8 : (0xff : Nat) = 2 ^ 8 - 1 := by norm_num
  simp only [h24, h8, Nat.testBit_and, Nat.testBit_or, Nat.testBit_shiftLeft,
    Nat.testBit_shiftRight, Nat.testBit_two_pow_sub_one]
  rcases Nat.lt_or_ge i 8 with hi | hi
  · have t1 : 16 + i < 24 := by omega
    have t2 : ¬ 16 + i ≥ 24 := by omega
    simp [hi, t1, t2]
  · have t0 : ¬ i < 8 := by omega
    simp [t0]

/-- Alpha channel of the alpha-overridden combination is the supplied
alpha, for alpha values that fit in one byte. -/
theorem IM_COL32_A_combine (c a : Nat) (ha : a ≤ 0xff) :
    IM_COL32_A ((c &&& 0x00FFFFFF) ||| (a <<< 24)) = a := by
  unfold IM_COL32_A
  apply Nat.eq_of_testBit_eq
  intro i
  have h24 : (0x00FFFFFF : Nat) = 2 ^ 24 - 1 := by norm_num
  have h8 : (0xff : Nat) = 2 ^ 8 - 1 := by norm_num
  simp only [h24, h8, Nat.testBit_and, Nat.testBit_or, Nat.testBit_shiftLeft,
    Nat.testBit_shiftRight, Nat.testBit_two_pow_sub_one]
  rcases Nat.lt_or_ge i 8 with hi | hi
  · have t1 : ¬ 24 + i < 24 := by omega
    have t2 : 24 + i ≥ 24 := by omega
    have t3 : 24 + i - 24 = i := by omega
    simp [hi, t1, t2, t3]
  · have t0 : ¬ i < 8 := by omega
    have h256 : a < 2 ^ 8 := by norm_num; omega
    have hlt : a < 2 ^ i :=
      lt_of_lt_of_le h256 (Nat.pow_le_pow_right (by norm_num) hi)
    simp [t0, Nat.testBit_lt_two_pow hlt]

/-- Counterexample to C1 as stated: col_ThemeAlpha is alpha-only, yet
Clrs::get applies the alpha override to it instead of returning the
stored color (there is no is_alpha_color check in get). -/
theorem clrs_get_alpha_only_counterexample :
    Clrs.is_alpha_color col_ThemeAlpha = true ∧
    Clrs.get c1_table col_ThemeAlpha 0x44 ≠
      (c1_table.getD col_ThemeAlpha default).color := by
  decide

/-- C1 amended: for every role, alpha-only or not, an override alpha of
at most 255 yields the stored color with its RGB channels unchanged and
the supplied alpha in place of the stored alpha; any larger alpha yields
the stored packed color unchanged. The table is a read-only argument of
Clrs.get, so no call mutates registry state. -/
theorem clrs_get_spec (table : List colordata) (col alpha : Nat) :
    (alpha ≤ 0xff →
      IM_COL32_R (Clrs.get table col alpha) =
        IM_COL32_R (table.getD col default).color ∧
      IM_COL32_G (Clrs.get table col alpha) =
        IM_COL32_G (table.getD col default).color ∧
      IM_COL32_B (Clrs.get table col alpha) =
        IM_COL32_B (table.getD col default).color ∧
      IM_COL32_A (Clrs.get table col alpha) = alpha) ∧
    (0xff < alpha → Clrs.get table col alpha = (table.getD col default).color) := by
  constructor
  · intro ha
    have e : Clrs.get table col alpha =
        ((table.getD col default).color &&& 0x00FFFFFF) ||| (alpha <<< 24) := by
      unfold Clrs.get IM_COL32_A_SHIFT
      rw [if_pos ha]
    rw [e]
    exact ⟨IM_COL32_R_combine _ _, IM_COL32_G_combine _ _,
      IM_COL32_B_combine _ _, IM_COL32_A_combine _ _ ha⟩
  · intro ha
    unfold Clrs.get
    rw [if_neg (by omega)]

/-- Witness for C1 at a concrete table: a one-byte override lands in the
alpha channel, an out-of-range override returns the stored color. -/
theorem clrs_get_spec_witness :
    IM_COL32_A (Clrs.get c2_table 0 0x44) = 0x44 ∧
    Clrs.get c2_table 0 0x1234 = (c2_table.getD 0 default).color :=
  ⟨((clrs_get_spec c2_table 0 0x44).1 (by decide)).2.2.2,
   (clrs_get_spec c2_table 0 0x1234).2 (by decide)⟩

/-! ### C2: shutdown persists exactly the modified entries -/

/-- Restating the shutdown write list: it is the modified entries, in
table order, each mapped to an erase (blank string) when back at the
default or to a color write otherwise; unmodified entries contribute no
write. -/
theorem shutdownWrites_eq_filter_map (table : List colordata) :
    Clrs.shutdownWrites table =
      (table.filter (fun cd => cd.modified)).map
        (fun cd =>
          if cd.isDefault then IniWrite.putStr cd.name "" "$imgui_colors$"
          else IniWrite.putUint64 cd.name cd.color "$imgui_colors$") := by
  induction table with
  | nil => rfl
  | cons cd rest ih =>
    unfold Clrs.shutdownWrites at ih ⊢
    simp only [List.flatMap_cons, List.filter_cons]
    by_cases hm : cd.modified
    · by_cases hd : cd.isDefault <;> simp [hm, hd, ih]
    · simp [hm, ih]

/-- Tables whose entries named nm are all at their default produce no
putUint64 write under the key nm. -/
theorem shutdownWrites_no_override (table : List colordata) (nm : String)
    (h : ∀ cd ∈ table, cd.name = nm → cd.isDefault = true) :
    ∀ v sec, IniWrite.putUint64 nm v sec ∉ Clrs.shutdownWrites table := by
  intro v sec hmem
  unfold Clrs.shutdownWrites at hmem
  rw [List.mem_flatMap] at hmem
  obtain ⟨cd, hcd, hin⟩ := hmem
  by_cases hm : cd.modified
  · rw [if_pos hm] at hin
    by_cases hd : cd.isDefault
    · rw [if_pos hd] at hin
      simp at hin
    · rw [if_neg hd] at hin
      simp at hin
      exact hd (h cd hcd hin.1.symm)
  · rw [if_neg hm] at hin
    simp at hin

/-- Identically named entries of a name-nodup table sit at one index. -/
theorem name_unique_index (table : List colordata)
    (hnodup : (table.map colordata.name).Nodup) {j col : Nat}
    (hj : j < table.length) (hcol : col < table.length)
    (hname : table[j].name = table[col].name) : j = col := by
  have hjm : j < (table.map colordata.name).length := by simpa using hj
  have hcm : col < (table.map colordata.name).length := by simpa using hcol
  have hm : (table.map colordata.name)[j] =
      (table.map colordata.name)[col] := by
    simp only [List.getElem_map]
    exact hname
  exact (hnodup.getElem_inj_iff).1 hm

/-- After setting a role back to its default color, every entry bearing
that role's name is at its default. -/
theorem set_default_entries_default (table : List colordata) (col : Nat)
    (hcol : col < table.length)
    (hnodup : (table.map colordata.name).Nodup) :
    ∀ cd ∈ Clrs.set table col (table.getD col default).defcolor,
      cd.name = (table.getD col default).name → cd.isDefault = true := by
  have hgd : table.getD col default = table[col] := by
    rw [List.getD_eq_getElem?_getD, List.getElem?_eq_getElem hcol]
    rfl
  intro cd hcd hname
  unfold Clrs.set at hcd
  by_cases hne :
      (table.getD col default).color ≠ (table.getD col default).defcolor
  · rw [if_pos hne] at hcd
    obtain ⟨j, hj, hget⟩ := List.getElem_of_mem hcd
    have hjlen : j < table.length := by simpa using hj
    by_cases hjc : j = col
    · subst hjc
      rw [List.getElem_set_self] at hget
      rw [← hget]
      simp [colordata.isDefault]
    · rw [List.getElem_set_ne (Ne.symm hjc)] at hget
      have hnm : table[j].name = table[col].name := by
        rw [hget, hname, hgd]
      exact absurd (name_unique_index table hnodup hjlen hcol hnm) hjc
  · rw [if_neg hne] at hcd
    push_neg at hne
    obtain ⟨j, hj, hget⟩ := List.getElem_of_mem hcd
    by_cases hjc : j = col
    · subst hjc
      rw [← hget, ← hgd]
      simp only [colordata.isDefault, beq_iff_eq]
      exact hne
    · have hnm : table[j].name = table[col].name := by
        rw [hget, hname, hgd]
      exact absurd (name_unique_index table hnodup hj hcol hnm) hjc

/-- C2: the store writes of Clrs::shutdown are exactly one write per
modified entry, in table order: an erase (blank string) when the entry is
back at its default, else its current color under its name; unmodified
entries cause no write. Moreover, after set(r, defaultColor(r)) a
shutdown emits no override value (putUint64) for the name of r. -/
theorem clrs_shutdown_writes_spec (table : List colordata) :
    Clrs.shutdownWrites table =
      (table.filter (fun cd => cd.modified)).map
        (fun cd =>
          if cd.isDefault then IniWrite.putStr cd.name "" "$imgui_colors$"
          else IniWrite.putUint64 cd.name cd.color "$imgui_colors$") ∧
    (∀ col, col < table.length →
      (table.map colordata.name).Nodup →
      ∀ v sec,
        IniWrite.putUint64 (table.getD col default).name v sec ∉
          Clrs.shutdownWrites
            (Clrs.set table col (table.getD col default).defcolor)) := by
  refine ⟨shutdownWrites_eq_filter_map table, ?_⟩
  intro col hcol hnodup v sec
  exact shutdownWrites_no_override _ _
    (set_default_entries_default table col hcol hnodup) v sec

/-- Witness for C2 on a concrete two-entry table: setting col_A back to
its default and shutting down emits no override value for it. -/
theorem clrs_shutdown_writes_spec_witness :
    IniWrite.putUint64 "col_A" 5 "$imgui_colors$" ∉
      Clrs.shutdownWrites (Clrs.set c2_table 0 9) :=
  (clrs_shutdown_writes_spec c2_table).2 0 (by decide) (by decide) 5
    "$imgui_colors$"

/-! ### C3: init loads present overrides and keeps defaults -/

/-- Counterexample to C3 as stated: a value is present in the store under
the entry's name, yet init keeps the compiled-in default, because the
stored value equals the sentinel UINT64_MAX that init uses to detect
absence. -/
theorem clrs_init_sentinel_counterexample :
    c3_ini "$imgui_colors$" "col_A" = some (IniVal.u64 UINT64_MAX) ∧
    Clrs.init c3_ini c3_table = c3_table ∧
    ((Clrs.init c3_ini c3_table).getD 0 default).color = 7 ∧
    (7 : Nat) ≠ UINT64_MAX % 2 ^ 32 ∧ (7 : Nat) ≠ UINT64_MAX := by
  decide

/-- C3 amended: init looks each entry's name up under the fixed section;
a present 64-bit value other than the sentinel UINT64_MAX overwrites the
current color with the value truncated to 32 bits and leaves the
modified flag unchanged; an absent (or sentinel, or non-64-bit) value
leaves the entry untouched; no modified flag becomes true. -/
theorem clrs_init_spec (ini : Ini) (table : List colordata) (col : Nat)
    (h : col < table.length) :
    (ini.GetUint64 (table.getD col default).name UINT64_MAX
        "$imgui_colors$" ≠ UINT64_MAX →
      (Clrs.init ini table).getD col default =
        { table.getD col default with
            color := ini.GetUint64 (table.getD col default).name UINT64_MAX
              "$imgui_colors$" % 2 ^ 32 }) ∧
    (ini.GetUint64 (table.getD col default).name UINT64_MAX
        "$imgui_colors$" = UINT64_MAX →
      (Clrs.init ini table).getD col default = table.getD col default) ∧
    ((Clrs.init ini table).getD col default).modified =
      (table.getD col default).modified ∧
    ((∀ cd ∈ table, cd.modified = false) →
      ∀ cd ∈ Clrs.init ini table, cd.modified = false) := by
  have key : (Clrs.init ini table).getD col default =
      (if ini.GetUint64 (table.getD col default).name UINT64_MAX
          "$imgui_colors$" ≠ UINT64_MAX then
        { table.getD col default with
            color := ini.GetUint64 (table.getD col default).name UINT64_MAX
              "$imgui_colors$" % 2 ^ 32 }
      else table.getD col default) := by
    unfold Clrs.init
    rw [List.getD_eq_getElem?_getD, List.getElem?_map,
      List.getElem?_eq_getElem h]
    rw [List.getD_eq_getElem?_getD, List.getElem?_eq_getElem h]
    rfl
  refine ⟨?_, ?_, ?_, ?_⟩
  · intro hc
    rw [key, if_pos hc]
  · intro hc
    rw [key, if_neg (fun hk => hk hc)]
  · rw [key]
    by_cases hc : ini.GetUint64 (table.getD col default).name UINT64_MAX
        "$imgui_colors$" ≠ UINT64_MAX
    · rw [if_pos hc]
    · rw [if_neg hc]
  · intro hall cd hcd
    unfold Clrs.init at hcd
    rw [List.mem_map] at hcd
    obtain ⟨cd0, h0, heq⟩ := hcd
    have hm : cd.modified = cd0.modified := by
      rw [← heq]
      dsimp only
      by_cases hc : Ini.GetUint64 ini cd0.name UINT64_MAX "$imgui_colors$" ≠
          UINT64_MAX
      · rw [if_pos hc]
      · rw [if_neg hc]
    rw [hm]
    exact hall cd0 h0

/-- Witness for C3 at a concrete store holding an ordinary override:
init replaces the default color with the stored value. -/
theorem clrs_init_spec_witness :
    (Clrs.init c3_ini_present c3_table).getD 0 default =
      { c3_table.getD 0 default with color := 17 % 2 ^ 32 } :=
  (clrs_init_spec c3_ini_present c3_table 0 (by decide)).1 (by decide)

/-! ### C8: hue and value ranges of imgui_col_from_hashval -/

/-- Counterexample to C8 as stated: when the low 24 bits are all set the
derived hue is exactly 1, outside [0, 1); when the high byte is 255 the
derived value is exactly 1, outside [0.5, 1). -/
theorem imgui_col_from_hashval_counterexample :
    imgui_col_from_hashval_h 0xffffff = 1 ∧
    imgui_col_from_hashval_v 0xff000000 = 1 := by
  constructor
  · unfold imgui_col_from_hashval_h
    have e : (0xffffff &&& 0xffffff : Nat) = 16777215 := by decide
    rw [e]
    norm_num
  · unfold imgui_col_from_hashval_v
    have e : (0xff000000 >>> 24 : Nat) = 255 := by decide
    rw [e]
    norm_num

/-- C8 amended: imgui_col_from_hashval is a pure function of its
arguments (it is a function of them by construction), the hue derived
from the low 24 bits lies in the closed interval [0, 1], and for 32-bit
inputs the value derived from the high 8 bits lies in the closed
interval [1/2, 1]; both upper endpoints are attained. -/
theorem imgui_col_from_hashval_bounds (hashval : Nat)
    (h32 : hashval < 2 ^ 32) :
    0 ≤ imgui_col_from_hashval_h hashval ∧
    imgui_col_from_hashval_h hashval ≤ 1 ∧
    1 / 2 ≤ imgui_col_from_hashval_v hashval ∧
    imgui_col_from_hashval_v hashval ≤ 1 := by
  have hh : (hashval &&& 0xffffff) ≤ 0xffffff := Nat.and_le_right
  have hs : (hashval >>> 24) ≤ 255 := by
    have e24 : (2 : Nat) ^ 24 = 16777216 := by norm_num
    have e32 : (2 : Nat) ^ 32 = 4294967296 := by norm_num
    rw [Nat.shiftRight_eq_div_pow, e24]
    rw [e32] at h32
    omega
  have hsq : ((hashval >>> 24 : Nat) : ℚ) ≤ 255 := by exact_mod_cast hs
  have hs0 : (0 : ℚ) ≤ ((hashval >>> 24 : Nat) : ℚ) := by positivity
  unfold imgui_col_from_hashval_h imgui_col_from_hashval_v
  refine ⟨by positivity, ?_, ?_, ?_⟩
  · rw [div_le_one (by norm_num)]
    exact_mod_cast hh
  · have : (0 : ℚ) ≤ ((hashval >>> 24 : Nat) : ℚ) / (2 * 255) := by
      positivity
    linarith
  · linarith

/-- Witness for C8 at hashval 0. -/
theorem imgui_col_from_hashval_bounds_witness :
    0 ≤ imgui_col_from_hashval_h 0 ∧ imgui_col_from_hashval_h 0 ≤ 1 ∧
    1 / 2 ≤ imgui_col_from_hashval_v 0 ∧ imgui_col_from_hashval_v 0 ≤ 1 :=
  imgui_col_from_hashval_bounds 0 (by norm_num)

/-! ### C9: imgui_col_complement refines the specified complement -/

/-- On nonnegative arguments qfmod1 is the fractional part. -/
theorem qfmod1_eq_fract (x : ℚ) (hx : 0 ≤ x) : qfmod1 x = Int.fract x := by
  unfold qfmod1 qtrunc
  rw [if_pos hx]
  rfl

/-- The rotated hue stays nonnegative. -/
theorem rot_half_nonneg (x : ℚ) (hx : 0 ≤ x) : 0 ≤ rot_half x := by
  unfold rot_half
  split <;> linarith

/-- Modulo 1, the branching rotation of the source is plain addition of
one half. -/
theorem qfmod1_rot_half (x : ℚ) (hx : 0 ≤ x) :
    qfmod1 (rot_half x) = Int.fract (x + 1 / 2) := by
  unfold rot_half
  split
  · next h =>
    rw [qfmod1_eq_fract _ (by linarith)]
    have e : x + 1 / 2 - 1 = (x + 1 / 2) - ((1 : ℤ) : ℚ) := by push_cast; ring
    rw [e, Int.fract_sub_int]
  · next h =>
    rw [qfmod1_eq_fract _ (by linarith)]

/-- HSV to RGB conversion only sees the hue through qfmod1. -/
theorem hsv_hue_congr (h1 h2 s v : ℚ) (e : qfmod1 h1 = qfmod1 h2) :
    ColorConvertHSVtoRGB h1 s v = ColorConvertHSVtoRGB h2 s v := by
  unfold ColorConvertHSVtoRGB
  rw [e]

/-- The hue computed by RGB to HSV conversion is nonnegative. -/
theorem rgbToHsv_h_nonneg (r g b : ℚ) :
    0 ≤ (ColorConvertRGBtoHSV r g b).1 := by
  unfold ColorConvertRGBtoHSV
  dsimp only
  exact abs_nonneg _

/-- C9: imgui_col_complement computes exactly the color described by the
spec: convert to hue/saturation/value, rotate the hue by 0.5 modulo 1.0,
convert back with full opacity (the source's conditional subtraction
agrees with the mod-1 rotation because conversion back reduces the hue
mod 1); and rotating the hue by 0.5 twice is, mod 1, the identity, so a
double complement leaves the hue unchanged at the exact-arithmetic
level. -/
theorem imgui_col_complement_spec :
    (∀ col : Nat, imgui_col_complement col = spec_complement col) ∧
    (∀ h : ℚ, 0 ≤ h → qfmod1 (rot_half (rot_half h)) = qfmod1 h) := by
  constructor
  · intro col
    have hH := rgbToHsv_h_nonneg (ImColorToVec4 col).1 (ImColorToVec4 col).2.1
      (ImColorToVec4 col).2.2.1
    simp only [imgui_col_complement, spec_complement]
    set hsv := ColorConvertRGBtoHSV (ImColorToVec4 col).1
      (ImColorToVec4 col).2.1 (ImColorToVec4 col).2.2.1 with hhsv
    unfold imgui_hsv ImColorHSV
    dsimp only
    have e : ColorConvertHSVtoRGB (rot_half hsv.1) hsv.2.1 hsv.2.2 =
        ColorConvertHSVtoRGB (Int.fract (hsv.1 + 1 / 2)) hsv.2.1 hsv.2.2 :=
      hsv_hue_congr _ _ _ _ (by
        rw [qfmod1_rot_half _ hH, qfmod1_eq_fract _ (Int.fract_nonneg _),
          Int.fract_fract])
    rw [e]
  · intro h hh
    have h1 : 0 ≤ rot_half h := rot_half_nonneg h hh
    rw [qfmod1_rot_half _ h1, qfmod1_eq_fract _ hh]
    unfold rot_half
    split
    · next hgt =>
      have e : h + 1 / 2 - 1 + 1 / 2 = h := by ring
      rw [e]
    · next hle =>
      have e : h + 1 / 2 + 1 / 2 = h + ((1 : ℤ) : ℚ) := by push_cast; ring
      rw [e, Int.fract_add_int]

/-- Witness for C9 at the concrete color 0 and hue 0. -/
theorem imgui_col_complement_spec_witness :
    imgui_col_complement 0 = spec_complement 0 ∧
    qfmod1 (rot_half (rot_half 0)) = qfmod1 0 :=
  ⟨imgui_col_complement_spec.1 0, imgui_col_complement_spec.2 0 le_rfl⟩
